import Mathlib

/-!
Verification of the format-checker script of this repository.

The script reads a newline-separated list of file paths from standard
input, and for each path it reads the file, pipes a second read of the
file through a three-stage pipeline
(sed masking of the directive marker, an external formatter, sed
unmasking), compares the pipeline output with the original content,
prints a per-file verdict and finally exits with the number of
non-conforming files.

The embedding below models file contents and paths as lists of
characters, the file system as a partial map from paths to contents and
the external formatter as an arbitrary function on texts.  The observable
behaviour of a run is a trace of effects (prints and file reads) together
with an outcome (normal exit with a code, or an abort caused by an
unreadable path).
-/

/-- The directive marker the first sed stage masks: the characters of
the text that the pipeline protects from the formatter. -/
def pragmaTok : List Char := ['#', 'p', 'r', 'a', 'g', 'm', 'a', ' ', 'o', 'm', 'p']

/-- First sed stage: replace every occurrence of the directive marker by
its commented-out form, scanning left to right and never rescanning the
inserted text, exactly as sed does with a global substitution. -/
def sedMask : List Char → List Char
  | [] => []
  | c :: cs =>
    if pragmaTok.isPrefixOf (c :: cs) then
      '/' :: '/' :: (pragmaTok ++ sedMask (cs.drop 10))
    else
      c :: sedMask cs
termination_by l => l.length
decreasing_by
  · simp [List.length_drop]; omega
  · simp

/-- Whether the second sed stage matches at the head of the text: two
slashes, then any run of spaces, then the directive marker. -/
def unmaskHit (l : List Char) : Bool :=
  (['/', '/'] : List Char).isPrefixOf l &&
    pragmaTok.isPrefixOf ((l.drop 2).dropWhile (· = ' '))

/-- The rest of the text after a head match of the second sed stage. -/
def unmaskTail (l : List Char) : List Char :=
  ((l.drop 2).dropWhile (· = ' ')).drop 11

/-- Dropping a prefix by a predicate never lengthens a list. -/
theorem dropWhile_length_le (p : Char → Bool) (l : List Char) :
    (l.dropWhile p).length ≤ l.length := by
  induction l with
  | nil => simp
  | cons c cs ih =>
    rw [List.dropWhile]
    cases p c
    · simp
    · simpa using Nat.le_succ_of_le ih

/-- Second sed stage: replace every occurrence of two slashes, optional
spaces and the directive marker by the bare marker, scanning left to
right as sed does with a global substitution. -/
def sedUnmask : List Char → List Char
  | [] => []
  | c :: cs =>
    if unmaskHit (c :: cs) then
      pragmaTok ++ sedUnmask (unmaskTail (c :: cs))
    else
      c :: sedUnmask cs
termination_by l => l.length
decreasing_by
  · have h2 : (((c :: cs).drop 2).dropWhile (· = ' ')).length ≤ ((c :: cs).drop 2).length :=
      dropWhile_length_le _ _
    simp [List.length_drop] at h2
    simp [unmaskTail, List.length_drop]
    omega
  · simp

/-- Boolean prefix test unfolded to an explicit decomposition. -/
theorem isPrefixOf_iff : ∀ (p l : List Char), p.isPrefixOf l = true ↔ ∃ t, l = p ++ t
  | [], l => by simp [List.isPrefixOf]
  | a :: as, [] => by simp [List.isPrefixOf]
  | a :: as, b :: bs => by
    simp only [List.isPrefixOf, Bool.and_eq_true, beq_iff_eq, isPrefixOf_iff as bs,
      List.cons_append, List.cons.injEq]
    constructor
    · rintro ⟨h1, t, h2⟩
      exact ⟨t, h1.symm, h2⟩
    · rintro ⟨t, h1, h2⟩
      exact ⟨h1.symm, t, h2⟩

/-- A list is a prefix of itself followed by anything. -/
theorem isPrefixOf_append (p t : List Char) : p.isPrefixOf (p ++ t) = true :=
  (isPrefixOf_iff p (p ++ t)).mpr ⟨t, rfl⟩

/-- Unfolding of the first sed stage on a match of the directive marker. -/
theorem sedMask_pragma (rest : List Char) :
    sedMask (pragmaTok ++ rest) = '/' :: '/' :: (pragmaTok ++ sedMask rest) := by
  have hsplit : pragmaTok ++ rest =
      '#' :: (['p', 'r', 'a', 'g', 'm', 'a', ' ', 'o', 'm', 'p'] ++ rest) := rfl
  rw [hsplit, sedMask]
  have hpre : pragmaTok.isPrefixOf
      ('#' :: (['p', 'r', 'a', 'g', 'm', 'a', ' ', 'o', 'm', 'p'] ++ rest)) = true := by
    rw [← hsplit]; exact isPrefixOf_append pragmaTok rest
  rw [if_pos hpre]
  have hdrop : (['p', 'r', 'a', 'g', 'm', 'a', ' ', 'o', 'm', 'p'] ++ rest).drop 10 = rest := rfl
  rw [hdrop]

/-- Unfolding of the first sed stage when the directive marker does not
start the text. -/
theorem sedMask_cons_of_ne (c : Char) (cs : List Char)
    (h : ¬ pragmaTok.isPrefixOf (c :: cs) = true) :
    sedMask (c :: cs) = c :: sedMask cs := by
  rw [sedMask, if_neg h]

/-- Unfolding of the second sed stage on a cons cell. -/
theorem sedUnmask_cons (c : Char) (cs : List Char) :
    sedUnmask (c :: cs) =
      if unmaskHit (c :: cs) then pragmaTok ++ sedUnmask (unmaskTail (c :: cs))
      else c :: sedUnmask cs := by
  rw [sedUnmask]

/-- A prefix of the masked text that avoids the hash and slash characters
was copied verbatim from the input: the first sed stage only inserts
slashes and every inserted marker block starts with a slash. -/
theorem clean_isPrefixOf_sedMask : ∀ (u s : List Char),
    (∀ c ∈ s, c ≠ '#' ∧ c ≠ '/') → s.isPrefixOf (sedMask u) = true → s.isPrefixOf u = true := by
  intro u
  induction u with
  | nil =>
    intro s hs h
    cases s with
    | nil => rfl
    | cons a s' =>
      rw [sedMask] at h
      exact absurd h (by simp [List.isPrefixOf])
  | cons c cs ih =>
    intro s hs h
    cases s with
    | nil => rfl
    | cons a s' =>
      by_cases hp : pragmaTok.isPrefixOf (c :: cs) = true
      · obtain ⟨rest, hrest⟩ := (isPrefixOf_iff _ _).mp hp
        rw [hrest, sedMask_pragma] at h
        simp only [List.isPrefixOf, Bool.and_eq_true, beq_iff_eq] at h
        exact absurd h.1 (hs a (by simp)).2
      · rw [sedMask_cons_of_ne c cs hp] at h
        simp only [List.isPrefixOf, Bool.and_eq_true, beq_iff_eq] at h ⊢
        refine ⟨h.1, ih s' (fun x hx => hs x (by simp [hx])) h.2⟩

/-- The first sed stage is trivial on the empty text. -/
theorem sedMask_nil : sedMask [] = [] := by rw [sedMask]

/-- After the first sed stage, the directive marker never appears at the
start of the text modulo leading spaces: every marker occurrence in the
masked text sits directly behind an inserted double slash. -/
theorem no_pragma_after_spaces : ∀ u : List Char,
    pragmaTok.isPrefixOf ((sedMask u).dropWhile (· = ' ')) = false := by
  intro u
  induction u with
  | nil => rw [sedMask_nil]; rfl
  | cons c cs ih =>
    by_cases hp : pragmaTok.isPrefixOf (c :: cs) = true
    · obtain ⟨rest, hrest⟩ := (isPrefixOf_iff _ _).mp hp
      rw [hrest, sedMask_pragma]
      simp [List.dropWhile, List.isPrefixOf, pragmaTok]
    · rw [sedMask_cons_of_ne c cs hp]
      by_cases hc : c = ' '
      · subst hc
        simpa [List.dropWhile] using ih
      · rw [List.dropWhile_cons_of_neg (by simpa using hc)]
        by_contra hbad
        rw [Bool.not_eq_false] at hbad
        have hstep : '#' = c ∧
            (['p', 'r', 'a', 'g', 'm', 'a', ' ', 'o', 'm', 'p'] :
              List Char).isPrefixOf (sedMask cs) = true := by
          simpa [pragmaTok, List.isPrefixOf, Bool.and_eq_true] using hbad
        have htail : (['p', 'r', 'a', 'g', 'm', 'a', ' ', 'o', 'm', 'p'] :
            List Char).isPrefixOf cs = true :=
          clean_isPrefixOf_sedMask cs _ (by decide) hstep.2
        apply hp
        rw [← hstep.1]
        simpa [pragmaTok, List.isPrefixOf] using htail

/-- The second sed stage is trivial on the empty text. -/
theorem sedUnmask_nil : sedUnmask [] = [] := by rw [sedUnmask]

/-- Core round-trip property of the two sed stages: unmasking the masked
text restores the original text exactly, whatever the original text is. -/
theorem sedUnmask_sedMask : ∀ u : List Char, sedUnmask (sedMask u) = u
  | [] => by rw [sedMask_nil, sedUnmask_nil]
  | c :: cs => by
    by_cases hp : pragmaTok.isPrefixOf (c :: cs) = true
    · obtain ⟨rest, hrest⟩ := (isPrefixOf_iff _ _).mp hp
      have hhit : unmaskHit ('/' :: '/' :: (pragmaTok ++ sedMask rest)) = true := by
        simp [unmaskHit, pragmaTok, List.isPrefixOf, List.dropWhile]
      have htail : unmaskTail ('/' :: '/' :: (pragmaTok ++ sedMask rest)) = sedMask rest := rfl
      rw [hrest, sedMask_pragma, sedUnmask_cons, if_pos hhit, htail,
        sedUnmask_sedMask rest]
    · have hnohit : unmaskHit (c :: sedMask cs) = false := by
        cases cs with
        | nil =>
          rw [sedMask_nil]
          simp [unmaskHit, List.isPrefixOf]
        | cons c2 cs2 =>
          by_cases hp2 : pragmaTok.isPrefixOf (c2 :: cs2) = true
          · obtain ⟨r2, hr2⟩ := (isPrefixOf_iff _ _).mp hp2
            rw [hr2, sedMask_pragma]
            have hdrop2 : (c :: '/' :: '/' :: (pragmaTok ++ sedMask r2)).drop 2 =
                '/' :: (pragmaTok ++ sedMask r2) := rfl
            simp [unmaskHit, hdrop2, pragmaTok, List.dropWhile, List.isPrefixOf]
          · rw [sedMask_cons_of_ne c2 cs2 hp2]
            have hdrop2 : (c :: c2 :: sedMask cs2).drop 2 = sedMask cs2 := rfl
            have hns := no_pragma_after_spaces cs2
            simp [unmaskHit, hdrop2, hns]
      rw [sedMask_cons_of_ne c cs hp, sedUnmask_cons, if_neg (by simp [hnohit]),
        sedUnmask_sedMask cs]
termination_by u => u.length
decreasing_by
  · rw [hrest]; simp [pragmaTok]; omega
  · simp

/-- The full formatting pipeline of the script: mask the directive
marker, run the external formatter, unmask.  The formatter is an
arbitrary function on texts, exactly as the script treats it. -/
def pipelineOut (fmt : List Char → List Char) (disk : List Char) : List Char :=
  sedUnmask (fmt (sedMask disk))

/-- The comparison of the script: the in-memory content read first is
compared for equality with the pipeline output computed from the content
delivered by the second, independent read of the file. -/
def fileVerdict (fmt : List Char → List Char) (original fromDisk : List Char) : Bool :=
  decide (original = pipelineOut fmt fromDisk)

/-- Conformance in the sense of the glossary: the content equals the
output of the formatting pipeline applied to it. -/
def conforms (fmt : List Char → List Char) (content : List Char) : Prop :=
  content = pipelineOut fmt content

/-- The per-file prefix printed before the file is opened. -/
def promptOf (name : List Char) : List Char := name ++ (": ").toList

/-- The text printed for a conforming file: the message plus the newline
of the print call. -/
def okOut : List Char := ("OK\n\n").toList

/-- The text printed for a non-conforming file: the message plus the
newline of the print call. -/
def needsOut : List Char := ("needs formatting\n\n").toList

/-- Observable effects of a run: writing a chunk to standard output,
reading a file (with success flag), or writing a file.  The script never
performs the last one; it is present so that the frame property is a
statement and not a tautology of the effect type. -/
inductive Eff where
  | print (s : List Char)
  | readF (path : List Char) (ok : Bool)
  | writeF (path : List Char) (content : List Char)
deriving DecidableEq, Repr

/-- How a run ends: a normal process exit with a code, or an abort
caused by an unreadable path (an uncaught file access error). -/
inductive Outcome where
  | exited (code : Nat)
  | aborted (path : List Char)
deriving DecidableEq, Repr

/-- The main loop of the script over the list of stripped input paths,
carrying the running count of non-conforming files.  For each path it
prints the prompt, reads the file (aborting the run if that fails),
feeds a second read of the file to the pipeline, prints the verdict and
updates the count.  The result is the effect trace and the outcome. -/
def checkLoop (fs : List Char → Option (List Char)) (fmt : List Char → List Char) :
    List (List Char) → Nat → List Eff × Outcome
  | [], status => ([], Outcome.exited status)
  | name :: rest, status =>
    match fs name with
    | none => ([Eff.print (promptOf name), Eff.readF name false], Outcome.aborted name)
    | some original =>
      if fileVerdict fmt original ((fs name).getD []) then
        let r := checkLoop fs fmt rest status
        (Eff.print (promptOf name) :: Eff.readF name true :: Eff.readF name true ::
          Eff.print okOut :: r.1, r.2)
      else
        let r := checkLoop fs fmt rest (status + 1)
        (Eff.print (promptOf name) :: Eff.readF name true :: Eff.readF name true ::
          Eff.print needsOut :: r.1, r.2)

/-- Whitespace stripping applied to every input line, as the string
strip method of the source does. -/
def pyStrip (l : List Char) : List Char :=
  ((l.dropWhile Char.isWhitespace).reverse.dropWhile Char.isWhitespace).reverse

/-- A whole run of the script: strip every line read from standard
input and process the resulting paths with a fresh count of zero. -/
def run (fs : List Char → Option (List Char)) (fmt : List Char → List Char)
    (stdinLines : List (List Char)) : List Eff × Outcome :=
  checkLoop fs fmt (stdinLines.map pyStrip) 0

/-- Concatenation of a list of chunks. -/
def catLists {α : Type} : List (List α) → List α
  | [] => []
  | x :: xs => x ++ catLists xs

/-- The text a single effect contributes to standard output. -/
def effOut : Eff → List Char
  | Eff.print s => s
  | Eff.readF _ _ => []
  | Eff.writeF _ _ => []

/-- The text a trace of effects writes to standard output. -/
def stdoutOf (t : List Eff) : List Char := catLists (t.map effOut)

/-- The effect trace produced for one successfully read file. -/
def fileEffects (fmt : List Char → List Char) (name content : List Char) : List Eff :=
  [Eff.print (promptOf name), Eff.readF name true, Eff.readF name true,
    Eff.print (if fileVerdict fmt content content then okOut else needsOut)]

/-- The number of non-conforming files among a list of paths, every one
assumed readable. -/
def badCount (fs : List Char → Option (List Char)) (fmt : List Char → List Char)
    (names : List (List Char)) : Nat :=
  names.countP (fun n => ! fileVerdict fmt ((fs n).getD []) ((fs n).getD []))

/-- Replaying a trace of effects against a file system: only a file
write changes it. -/
def applyEffects (fs : List Char → Option (List Char)) : List Eff → (List Char → Option (List Char))
  | [] => fs
  | Eff.writeF p c :: es => applyEffects (fun n => if n = p then some c else fs n) es
  | Eff.print _ :: es => applyEffects fs es
  | Eff.readF _ _ :: es => applyEffects fs es

/-- Splitting a text at every newline; a text ending in a newline yields
a final empty segment. -/
def splitOnNl : List Char → List (List Char)
  | [] => [[]]
  | c :: cs =>
    if c = '\n' then [] :: splitOnNl cs
    else
      match splitOnNl cs with
      | [] => [[c]]
      | s :: ss => (c :: s) :: ss

/-- Unfolding of the main loop at a readable path. -/
theorem checkLoop_cons_some (fs : List Char → Option (List Char)) (fmt : List Char → List Char)
    (name : List Char) (rest : List (List Char)) (s : Nat) (orig : List Char)
    (h : fs name = some orig) :
    checkLoop fs fmt (name :: rest) s =
      if fileVerdict fmt orig orig then
        (Eff.print (promptOf name) :: Eff.readF name true :: Eff.readF name true ::
          Eff.print okOut :: (checkLoop fs fmt rest s).1, (checkLoop fs fmt rest s).2)
      else
        (Eff.print (promptOf name) :: Eff.readF name true :: Eff.readF name true ::
          Eff.print needsOut :: (checkLoop fs fmt rest (s + 1)).1,
          (checkLoop fs fmt rest (s + 1)).2) := by
  rw [checkLoop, h]
  simp [Option.getD]

/-- Unfolding of the main loop at an unreadable path. -/
theorem checkLoop_cons_none (fs : List Char → Option (List Char)) (fmt : List Char → List Char)
    (name : List Char) (rest : List (List Char)) (s : Nat) (h : fs name = none) :
    checkLoop fs fmt (name :: rest) s =
      ([Eff.print (promptOf name), Eff.readF name false], Outcome.aborted name) := by
  rw [checkLoop, h]

/-- When every path is readable, the main loop produces the per-file
effect blocks in input order and exits with the running count plus the
number of non-conforming files. -/
theorem checkLoop_all_ok (fs : List Char → Option (List Char)) (fmt : List Char → List Char) :
    ∀ (names : List (List Char)) (s : Nat), (∀ n ∈ names, (fs n).isSome) →
      checkLoop fs fmt names s =
        (catLists (names.map (fun n => fileEffects fmt n ((fs n).getD []))),
          Outcome.exited (s + badCount fs fmt names)) := by
  intro names
  induction names with
  | nil =>
    intro s _
    simp [checkLoop, catLists, badCount]
  | cons name rest ih =>
    intro s h
    obtain ⟨orig, horig⟩ := Option.isSome_iff_exists.mp (h name (by simp))
    have hrest : ∀ n ∈ rest, (fs n).isSome := fun n hn => h n (by simp [hn])
    rw [checkLoop_cons_some fs fmt name rest s orig horig]
    by_cases hv : fileVerdict fmt orig orig = true
    · rw [if_pos hv, ih s hrest]
      simp [catLists, fileEffects, badCount, List.countP_cons, horig, hv]
    · rw [if_neg hv, ih (s + 1) hrest]
      simp [catLists, fileEffects, badCount, List.countP_cons, horig, hv]
      omega

/-- When the paths before some unreadable path are all readable, the
main loop reports the readable ones, prints the prompt of the failing
path, records the failed read and aborts; the paths after it leave no
effect at all. -/
theorem checkLoop_abort (fs : List Char → Option (List Char)) (fmt : List Char → List Char) :
    ∀ (pre : List (List Char)), (∀ n ∈ pre, (fs n).isSome) →
      ∀ (bad : List Char), fs bad = none →
      ∀ (post : List (List Char)) (s : Nat),
      checkLoop fs fmt (pre ++ bad :: post) s =
        (catLists (pre.map (fun n => fileEffects fmt n ((fs n).getD []))) ++
          [Eff.print (promptOf bad), Eff.readF bad false], Outcome.aborted bad) := by
  intro pre
  induction pre with
  | nil =>
    intro _ bad hbad post s
    simp [catLists, checkLoop_cons_none fs fmt bad post s hbad]
  | cons name rest ih =>
    intro h bad hbad post s
    obtain ⟨orig, horig⟩ := Option.isSome_iff_exists.mp (h name (by simp))
    have hrest : ∀ n ∈ rest, (fs n).isSome := fun n hn => h n (by simp [hn])
    rw [List.cons_append, checkLoop_cons_some fs fmt name (rest ++ bad :: post) s orig horig]
    by_cases hv : fileVerdict fmt orig orig = true
    · rw [if_pos hv, ih hrest bad hbad post s]
      simp [catLists, fileEffects, horig, hv]
    · rw [if_neg hv, ih hrest bad hbad post (s + 1)]
      simp [catLists, fileEffects, horig, hv]

/-- The main loop never records a file write. -/
theorem checkLoop_no_writeF (fs : List Char → Option (List Char)) (fmt : List Char → List Char) :
    ∀ (names : List (List Char)) (s : Nat) (p c : List Char),
      Eff.writeF p c ∉ (checkLoop fs fmt names s).1 := by
  intro names
  induction names with
  | nil => intro s p c; simp [checkLoop]
  | cons name rest ih =>
    intro s p c
    cases hfs : fs name with
    | none => simp [checkLoop_cons_none fs fmt name rest s hfs]
    | some orig =>
      rw [checkLoop_cons_some fs fmt name rest s orig hfs]
      by_cases hv : fileVerdict fmt orig orig = true
      · rw [if_pos hv]
        simp
        exact ih s p c
      · rw [if_neg hv]
        simp
        exact ih (s + 1) p c

/-- Replaying a trace without file writes leaves the file system as it
was. -/
theorem applyEffects_of_no_writeF (fs : List Char → Option (List Char)) :
    ∀ (t : List Eff), (∀ p c, Eff.writeF p c ∉ t) → applyEffects fs t = fs := by
  intro t
  induction t with
  | nil => intro _; rfl
  | cons e es ih =>
    intro h
    cases e with
    | print s =>
      rw [applyEffects]
      exact ih (fun p c hm => h p c (by simp [hm]))
    | readF n b =>
      rw [applyEffects]
      exact ih (fun p c hm => h p c (by simp [hm]))
    | writeF p c =>
      exact absurd (by simp : Eff.writeF p c ∈ Eff.writeF p c :: es) (h p c)

/-- Concatenation distributes over list append. -/
theorem catLists_append {α : Type} : ∀ (a b : List (List α)),
    catLists (a ++ b) = catLists a ++ catLists b := by
  intro a b
  induction a with
  | nil => simp [catLists]
  | cons x xs ih => simp [catLists, ih]

/-- The standard output of a concatenated trace. -/
theorem stdoutOf_append (a b : List Eff) :
    stdoutOf (a ++ b) = stdoutOf a ++ stdoutOf b := by
  simp [stdoutOf, List.map_append, catLists_append]

/-- The verdict word of the per-file report line. -/
def verdictWord (fmt : List Char → List Char) (content : List Char) : List Char :=
  if fileVerdict fmt content content then ("OK").toList else ("needs formatting").toList

/-- The single non-empty line the script prints for a readable file. -/
def reportLine (fs : List Char → Option (List Char)) (fmt : List Char → List Char)
    (n : List Char) : List Char :=
  n ++ (": ").toList ++ verdictWord fmt ((fs n).getD [])

/-- The standard output of one per-file effect block: the report line
followed by a newline ending the line and a newline for the blank line. -/
theorem stdoutOf_fileEffects (fmt : List Char → List Char) (n c : List Char) :
    stdoutOf (fileEffects fmt n c) =
      (n ++ (": ").toList ++ (if fileVerdict fmt c c then ("OK").toList
        else ("needs formatting").toList)) ++ ['\n', '\n'] := by
  have hok : okOut = ("OK").toList ++ ['\n', '\n'] := rfl
  have hneeds : needsOut = ("needs formatting").toList ++ ['\n', '\n'] := rfl
  cases hv : fileVerdict fmt c c <;>
    simp [stdoutOf, fileEffects, catLists, effOut, promptOf, hok, hneeds, hv]

/-- Splitting at newlines after a newline-free prefix. -/
theorem splitOnNl_append_no_nl : ∀ (a b : List Char), '\n' ∉ a →
    ∀ (h : List Char) (t : List (List Char)),
      splitOnNl b = h :: t → splitOnNl (a ++ b) = (a ++ h) :: t := by
  intro a
  induction a with
  | nil =>
    intro b _ h t hb
    simpa using hb
  | cons c a' ih =>
    intro b hnl h t hb
    have hc : ¬ c = '\n' := fun hcc => hnl (by simp [hcc])
    rw [List.cons_append, splitOnNl, if_neg hc, ih b (fun hm => hnl (by simp [hm])) h t hb]
    rfl

/-- Splitting at newlines after a leading newline. -/
theorem splitOnNl_nl (b : List Char) : splitOnNl ('\n' :: b) = [] :: splitOnNl b := by
  rw [splitOnNl, if_pos rfl]

/-- The report line of a readable file contains no newline when the path
contains none. -/
theorem newline_not_mem_reportLine (fs : List Char → Option (List Char))
    (fmt : List Char → List Char) (n : List Char) (h : '\n' ∉ n) :
    '\n' ∉ reportLine fs fmt n := by
  intro hm
  simp only [reportLine, List.mem_append] at hm
  rcases hm with (hm | hm) | hm
  · exact h hm
  · revert hm; decide
  · revert hm
    unfold verdictWord
    cases fileVerdict fmt ((fs n).getD []) ((fs n).getD []) <;> decide

/-- The lines of the standard output of the per-file effect blocks: one
report line and one blank line per file, in input order, plus the final
empty segment produced by the terminating newline. -/
theorem splitOnNl_stdout (fs : List Char → Option (List Char)) (fmt : List Char → List Char) :
    ∀ (names : List (List Char)), (∀ n ∈ names, '\n' ∉ n) →
      splitOnNl (stdoutOf (catLists (names.map (fun n => fileEffects fmt n ((fs n).getD []))))) =
        catLists (names.map (fun n => [reportLine fs fmt n, []])) ++ [[]] := by
  intro names
  induction names with
  | nil => simp [catLists, stdoutOf, splitOnNl]
  | cons name rest ih =>
    intro h
    have hname : '\n' ∉ name := h name (by simp)
    have hrest := ih (fun n hn => h n (by simp [hn]))
    rw [List.map_cons, catLists, stdoutOf_append, stdoutOf_fileEffects]
    have hfold : (name ++ (": ").toList ++
        (if fileVerdict fmt ((fs name).getD []) ((fs name).getD []) then ("OK").toList
          else ("needs formatting").toList)) = reportLine fs fmt name := rfl
    rw [hfold, List.append_assoc]
    have hsplit2 : splitOnNl (['\n', '\n'] ++
        stdoutOf (catLists (rest.map (fun n => fileEffects fmt n ((fs n).getD []))))) =
        [] :: ([] :: splitOnNl
          (stdoutOf (catLists (rest.map (fun n => fileEffects fmt n ((fs n).getD [])))))) := by
      rw [List.cons_append, List.cons_append, List.nil_append, splitOnNl_nl, splitOnNl_nl]
    rw [splitOnNl_append_no_nl (reportLine fs fmt name) _
      (newline_not_mem_reportLine fs fmt name hname) [] _ hsplit2]
    rw [hrest]
    simp [catLists]

/-- Dropping by a predicate every element satisfies empties the list. -/
theorem dropWhile_of_all (p : Char → Bool) :
    ∀ l : List Char, (∀ c ∈ l, p c = true) → l.dropWhile p = [] := by
  intro l
  induction l with
  | nil => intro _; rfl
  | cons c cs ih =>
    intro h
    rw [List.dropWhile_cons_of_pos (h c (by simp))]
    exact ih (fun x hx => h x (by simp [hx]))

/-- Stripping a line made of whitespace only yields the empty path. -/
theorem pyStrip_whitespace_only :
    ∀ l : List Char, (∀ c ∈ l, c.isWhitespace) → pyStrip l = [] := by
  intro l h
  rw [pyStrip, dropWhile_of_all Char.isWhitespace l h]
  rfl

/-- A tiny concrete file system used by the witnesses: one readable
file at path a with content x, nothing else. -/
def wFs : List Char → Option (List Char) := fun n => if n = ['a'] then some ['x'] else none

/-- The identity formatter used by the witnesses. -/
def wId : List Char → List Char := fun s => s

/-- The count of non-conforming files is zero exactly when every listed
file conforms. -/
theorem badCount_eq_zero_iff (fs : List Char → Option (List Char))
    (fmt : List Char → List Char) (names : List (List Char)) :
    badCount fs fmt names = 0 ↔ ∀ n ∈ names, conforms fmt ((fs n).getD []) := by
  rw [badCount, List.countP_eq_zero]
  constructor
  · intro h n hn
    have := h n hn
    simpa [fileVerdict, conforms] using this
  · intro h n hn
    simpa [fileVerdict, conforms] using h n hn

/-- Claim C1: after processing every input path, the run terminates with
exit code equal to the exact number of files whose content differed from
the pipeline output, and the exit code is zero exactly when every listed
file conforms. -/
theorem c1_exit_count (fs : List Char → Option (List Char)) (fmt : List Char → List Char)
    (lines : List (List Char)) (h : ∀ n ∈ lines.map pyStrip, (fs n).isSome) :
    (run fs fmt lines).2 = Outcome.exited (badCount fs fmt (lines.map pyStrip)) ∧
    ((run fs fmt lines).2 = Outcome.exited 0 ↔
      ∀ n ∈ lines.map pyStrip, conforms fmt ((fs n).getD [])) := by
  have hmain := checkLoop_all_ok fs fmt (lines.map pyStrip) 0 h
  rw [run, hmain]
  constructor
  · simp
  · simp [badCount_eq_zero_iff fs fmt (lines.map pyStrip)]

/-- Witness for claim C1 at a concrete one-file input. -/
theorem c1_exit_count_witness :
    (run wFs wId [['a']]).2 = Outcome.exited (badCount wFs wId ([['a']].map pyStrip)) ∧
    ((run wFs wId [['a']]).2 = Outcome.exited 0 ↔
      ∀ n ∈ [['a']].map pyStrip, conforms wId ((wFs n).getD [])) :=
  c1_exit_count wFs wId [['a']] (by decide)

/-- Claim C2: for a readable file the loop prints OK and passes the
count on unchanged exactly when the pipeline output equals the original
content, and prints needs formatting and increments the count by exactly
one when it differs. -/
theorem c2_per_file (fs : List Char → Option (List Char)) (fmt : List Char → List Char)
    (name : List Char) (rest : List (List Char)) (s : Nat) (orig : List Char)
    (h : fs name = some orig) :
    (orig = pipelineOut fmt orig →
      checkLoop fs fmt (name :: rest) s =
        (Eff.print (promptOf name) :: Eff.readF name true :: Eff.readF name true ::
          Eff.print okOut :: (checkLoop fs fmt rest s).1, (checkLoop fs fmt rest s).2)) ∧
    (orig ≠ pipelineOut fmt orig →
      checkLoop fs fmt (name :: rest) s =
        (Eff.print (promptOf name) :: Eff.readF name true :: Eff.readF name true ::
          Eff.print needsOut :: (checkLoop fs fmt rest (s + 1)).1,
          (checkLoop fs fmt rest (s + 1)).2)) := by
  rw [checkLoop_cons_some fs fmt name rest s orig h]
  constructor
  · intro heq
    rw [if_pos (show fileVerdict fmt orig orig = true from decide_eq_true heq)]
  · intro hne
    rw [if_neg (show ¬ fileVerdict fmt orig orig = true from
      fun hc => hne (of_decide_eq_true hc))]

/-- Witness for claim C2 at a concrete readable file. -/
theorem c2_per_file_witness :
    ((['x'] : List Char) = pipelineOut wId ['x'] →
      checkLoop wFs wId (['a'] :: []) 0 =
        (Eff.print (promptOf ['a']) :: Eff.readF ['a'] true :: Eff.readF ['a'] true ::
          Eff.print okOut :: (checkLoop wFs wId [] 0).1, (checkLoop wFs wId [] 0).2)) ∧
    ((['x'] : List Char) ≠ pipelineOut wId ['x'] →
      checkLoop wFs wId (['a'] :: []) 0 =
        (Eff.print (promptOf ['a']) :: Eff.readF ['a'] true :: Eff.readF ['a'] true ::
          Eff.print needsOut :: (checkLoop wFs wId [] (0 + 1)).1,
          (checkLoop wFs wId [] (0 + 1)).2)) :=
  c2_per_file wFs wId ['a'] [] 0 ['x'] (by decide)

/-- Claim C3: the verdict for a readable file is OK precisely when the
pipeline output is byte for byte equal to the original content. -/
theorem c3_byte_equality (fs : List Char → Option (List Char)) (fmt : List Char → List Char)
    (name : List Char) (rest : List (List Char)) (s : Nat) (orig : List Char)
    (h : fs name = some orig) :
    ((checkLoop fs fmt (name :: rest) s).1.take 4 =
      [Eff.print (promptOf name), Eff.readF name true, Eff.readF name true,
        Eff.print okOut]) ↔ orig = pipelineOut fmt orig := by
  rw [checkLoop_cons_some fs fmt name rest s orig h]
  by_cases hv : orig = pipelineOut fmt orig
  · rw [if_pos (show fileVerdict fmt orig orig = true from decide_eq_true hv)]
    constructor
    · intro _
      exact hv
    · intro _
      rfl
  · rw [if_neg (show ¬ fileVerdict fmt orig orig = true from
      fun hc => hv (of_decide_eq_true hc))]
    have htake : (Eff.print (promptOf name) :: Eff.readF name true :: Eff.readF name true ::
        Eff.print needsOut :: (checkLoop fs fmt rest (s + 1)).1).take 4 =
        [Eff.print (promptOf name), Eff.readF name true, Eff.readF name true,
          Eff.print needsOut] := rfl
    rw [htake]
    constructor
    · intro hlists
      simp only [List.cons.injEq] at hlists
      have hmsg : needsOut = okOut := by
        have h4 := hlists.2.2.2.1
        injection h4
      exact absurd hmsg (by decide)
    · intro hfalse
      exact absurd hfalse hv

/-- Witness for claim C3 at a concrete readable file. -/
theorem c3_byte_equality_witness :
    ((checkLoop wFs wId (['a'] :: []) 0).1.take 4 =
      [Eff.print (promptOf ['a']), Eff.readF ['a'] true, Eff.readF ['a'] true,
        Eff.print okOut]) ↔ (['x'] : List Char) = pipelineOut wId ['x'] :=
  c3_byte_equality wFs wId ['a'] [] 0 ['x'] (by decide)

/-- Claim C4: masking the directive marker, running a formatter that
leaves the masked text alone, and unmasking restores the text exactly;
in particular the mask and unmask substitutions round-trip to the
identity on every text and so on every directive line. -/
theorem c4_mask_roundtrip (fmt : List Char → List Char) (l : List Char)
    (h : fmt (sedMask l) = sedMask l) : pipelineOut fmt l = l := by
  rw [pipelineOut, h, sedUnmask_sedMask]

/-- Witness for claim C4 on a directive line with nonstandard spacing. -/
theorem c4_mask_roundtrip_witness :
    pipelineOut wId (("#pragma omp   parallel for").toList) =
      ("#pragma omp   parallel for").toList :=
  c4_mask_roundtrip wId (("#pragma omp   parallel for").toList) rfl

/-- Claim C5: an input list containing an unreadable path aborts the run
at that path with an uncaught file access failure, prints results for no
later path, and the abort is a process failure distinct from every
counted exit code; an empty or whitespace-only input line strips to the
empty path, whose open fails, so it falls under the same abort.  The
model records the failure of opening such a path as the hypothesis that
the file system has no entry for it. -/
theorem c5_fatal_abort (fs : List Char → Option (List Char)) (fmt : List Char → List Char)
    (pre : List (List Char)) (bad : List Char) (post : List (List Char))
    (hpre : ∀ n ∈ pre.map pyStrip, (fs n).isSome) (hbad : fs (pyStrip bad) = none) :
    run fs fmt (pre ++ bad :: post) =
      (catLists ((pre.map pyStrip).map (fun n => fileEffects fmt n ((fs n).getD []))) ++
        [Eff.print (promptOf (pyStrip bad)), Eff.readF (pyStrip bad) false],
        Outcome.aborted (pyStrip bad)) ∧
    (∀ k, (run fs fmt (pre ++ bad :: post)).2 ≠ Outcome.exited k) ∧
    (∀ l : List Char, (∀ c ∈ l, c.isWhitespace) → pyStrip l = []) := by
  have hmap : (pre ++ bad :: post).map pyStrip =
      pre.map pyStrip ++ pyStrip bad :: post.map pyStrip := by
    simp
  have h1 : run fs fmt (pre ++ bad :: post) =
      (catLists ((pre.map pyStrip).map (fun n => fileEffects fmt n ((fs n).getD []))) ++
        [Eff.print (promptOf (pyStrip bad)), Eff.readF (pyStrip bad) false],
        Outcome.aborted (pyStrip bad)) := by
    rw [run, hmap,
      checkLoop_abort fs fmt (pre.map pyStrip) hpre (pyStrip bad) hbad (post.map pyStrip) 0]
  refine ⟨h1, ?_, pyStrip_whitespace_only⟩
  intro k
  rw [h1]
  simp

/-- Witness for claim C5: a readable file, then a whitespace-only line
stripping to the empty unreadable path, then a further path that is
never reported. -/
theorem c5_fatal_abort_witness :
    (run wFs wId ([['a']] ++ [' '] :: [['a']]) =
      (catLists (([['a']].map pyStrip).map (fun n => fileEffects wId n ((wFs n).getD []))) ++
        [Eff.print (promptOf (pyStrip [' '])), Eff.readF (pyStrip [' ']) false],
        Outcome.aborted (pyStrip [' ']))) ∧
    (∀ k, (run wFs wId ([['a']] ++ [' '] :: [['a']])).2 ≠ Outcome.exited k) ∧
    (∀ l : List Char, (∀ c ∈ l, c.isWhitespace) → pyStrip l = []) :=
  c5_fatal_abort wFs wId [['a']] [' '] [['a']] (by decide) (by decide)

/-- Claim C6: with every path readable and newline-free, standard output
splits at newlines into exactly one report line and one blank line per
input file, in input order, with the final empty segment witnessing that
the output ends in a newline. -/
theorem c6_output_order (fs : List Char → Option (List Char)) (fmt : List Char → List Char)
    (lines : List (List Char)) (h : ∀ n ∈ lines.map pyStrip, (fs n).isSome)
    (hn : ∀ n ∈ lines.map pyStrip, '\n' ∉ n) :
    splitOnNl (stdoutOf (run fs fmt lines).1) =
      catLists ((lines.map pyStrip).map (fun n => [reportLine fs fmt n, []])) ++ [[]] := by
  rw [run, checkLoop_all_ok fs fmt (lines.map pyStrip) 0 h]
  exact splitOnNl_stdout fs fmt (lines.map pyStrip) hn

/-- Witness for claim C6 at a concrete one-file input. -/
theorem c6_output_order_witness :
    splitOnNl (stdoutOf (run wFs wId [['a']]).1) =
      catLists (([['a']].map pyStrip).map (fun n => [reportLine wFs wId n, []])) ++ [[]] :=
  c6_output_order wFs wId [['a']] (by decide) (by decide)

/-- Claim C7: on an empty input list the run prints nothing, performs no
effect at all, and exits with code zero. -/
theorem c7_empty_input (fs : List Char → Option (List Char)) (fmt : List Char → List Char) :
    run fs fmt [] = ([], Outcome.exited 0) := rfl

/-- Claim C8: a run records no file write, and replaying its effect
trace leaves every file of the file system exactly as it was. -/
theorem c8_frame (fs : List Char → Option (List Char)) (fmt : List Char → List Char)
    (lines : List (List Char)) :
    (∀ p c, Eff.writeF p c ∉ (run fs fmt lines).1) ∧
    applyEffects fs (run fs fmt lines).1 = fs := by
  have hw : ∀ p c, Eff.writeF p c ∉ (run fs fmt lines).1 := fun p c =>
    checkLoop_no_writeF fs fmt (lines.map pyStrip) 0 p c
  exact ⟨hw, applyEffects_of_no_writeF fs _ hw⟩

/-- Claim C9: the per-file prompt is printed before the file is opened,
so when a path is unreadable the aborted run has already printed the
partial line for the failing path: the trace ends with the prompt print
followed by the failed read, and standard output ends with the partial
prompt of the failing path. -/
theorem c9_prompt_before_read (fs : List Char → Option (List Char)) (fmt : List Char → List Char)
    (pre : List (List Char)) (bad : List Char) (post : List (List Char))
    (hpre : ∀ n ∈ pre.map pyStrip, (fs n).isSome) (hbad : fs (pyStrip bad) = none) :
    (run fs fmt (pre ++ bad :: post)).1 =
      catLists ((pre.map pyStrip).map (fun n => fileEffects fmt n ((fs n).getD []))) ++
        [Eff.print (promptOf (pyStrip bad)), Eff.readF (pyStrip bad) false] ∧
    stdoutOf (run fs fmt (pre ++ bad :: post)).1 =
      stdoutOf (catLists ((pre.map pyStrip).map (fun n => fileEffects fmt n ((fs n).getD [])))) ++
        promptOf (pyStrip bad) := by
  have hmap : (pre ++ bad :: post).map pyStrip =
      pre.map pyStrip ++ pyStrip bad :: post.map pyStrip := by
    simp
  have h1 := checkLoop_abort fs fmt (pre.map pyStrip) hpre (pyStrip bad) hbad (post.map pyStrip) 0
  have htrace : (run fs fmt (pre ++ bad :: post)).1 =
      catLists ((pre.map pyStrip).map (fun n => fileEffects fmt n ((fs n).getD []))) ++
        [Eff.print (promptOf (pyStrip bad)), Eff.readF (pyStrip bad) false] := by
    rw [run, hmap, h1]
  refine ⟨htrace, ?_⟩
  rw [htrace, stdoutOf_append]
  simp [stdoutOf, catLists, effOut]

/-- Witness for claim C9 at a concrete aborting input. -/
theorem c9_prompt_before_read_witness :
    (run wFs wId ([['a']] ++ ['b'] :: [])).1 =
      catLists (([['a']].map pyStrip).map (fun n => fileEffects wId n ((wFs n).getD []))) ++
        [Eff.print (promptOf (pyStrip ['b'])), Eff.readF (pyStrip ['b']) false] ∧
    stdoutOf (run wFs wId ([['a']] ++ ['b'] :: [])).1 =
      stdoutOf (catLists (([['a']].map pyStrip).map
        (fun n => fileEffects wId n ((wFs n).getD [])))) ++ promptOf (pyStrip ['b']) :=
  c9_prompt_before_read wFs wId [['a']] ['b'] [] (by decide) (by decide)

/-- Claim C10: for every readable file the trace records two reads of
the path, the first for the in-memory content and the second feeding the
pipeline; the printed verdict compares the first read against the
pipeline output of the content delivered by the second read, and the
verdict genuinely depends on that second argument. -/
theorem c10_second_read (fs : List Char → Option (List Char)) (fmt : List Char → List Char)
    (name : List Char) (rest : List (List Char)) (s : Nat) (orig : List Char)
    (h : fs name = some orig) :
    ((checkLoop fs fmt (name :: rest) s).1.take 3 =
      [Eff.print (promptOf name), Eff.readF name true, Eff.readF name true]) ∧
    ((checkLoop fs fmt (name :: rest) s).1.take 4 =
      [Eff.print (promptOf name), Eff.readF name true, Eff.readF name true,
        Eff.print (if fileVerdict fmt orig ((fs name).getD []) then okOut else needsOut)]) ∧
    fileVerdict wId ['a'] ['a'] ≠ fileVerdict wId ['a'] ['b'] := by
  have hd : (fs name).getD [] = orig := by rw [h]; rfl
  have hsens : fileVerdict wId ['a'] ['a'] ≠ fileVerdict wId ['a'] ['b'] := by
    have h1 : fileVerdict wId ['a'] ['a'] = true := by
      simp [fileVerdict, pipelineOut, wId, sedUnmask_sedMask]
    have h2 : fileVerdict wId ['a'] ['b'] = false := by
      simp [fileVerdict, pipelineOut, wId, sedUnmask_sedMask]
    rw [h1, h2]
    simp
  rw [checkLoop_cons_some fs fmt name rest s orig h, hd]
  by_cases hv : fileVerdict fmt orig orig = true
  · rw [if_pos hv, if_pos hv]
    exact ⟨rfl, rfl, hsens⟩
  · rw [if_neg hv, if_neg hv]
    exact ⟨rfl, rfl, hsens⟩

/-- Witness for claim C10 at a concrete readable file. -/
theorem c10_second_read_witness :
    ((checkLoop wFs wId (['a'] :: []) 0).1.take 3 =
      [Eff.print (promptOf ['a']), Eff.readF ['a'] true, Eff.readF ['a'] true]) ∧
    ((checkLoop wFs wId (['a'] :: []) 0).1.take 4 =
      [Eff.print (promptOf ['a']), Eff.readF ['a'] true, Eff.readF ['a'] true,
        Eff.print (if fileVerdict wId ['x'] ((wFs ['a']).getD []) then okOut else needsOut)]) ∧
    fileVerdict wId ['a'] ['a'] ≠ fileVerdict wId ['a'] ['b'] :=
  c10_second_read wFs wId ['a'] [] 0 ['x'] (by decide)
